import Mathlib

/-!
Verification of the razor bioassay curve-fitting toolkit.

Shallow embedding of the numerical kernels of:
  src/curvemod/sigmoid.py   (4PL evaluation and inversion)
  src/curvemod/lowess.py    (bootstrap LOWESS percentile and se bands)
  src/curvemod/lowess2.py   (bootstrap LOWESS sorted-index percentile band)
  src/curvemod/linreg.py    (bootstrap linear-regression resampling)
  src/curvemod/avipy.py     (AUC of predicted dilution curves)
  src/plotty/curvature.py   (standalone 4PL evaluation)
  src/plotty/utils.py       (p-value star annotation)

Machine floats are idealised as real numbers (exact arithmetic) where the
computation stays inside the normal range; where the NaN/infinity behaviour
of numpy floats matters, an explicit extended-value type `PFloat` models the
IEEE special values (signed zeros are collapsed to a single zero).  The
combinatorial parts (index resampling, sorted-index percentile selection,
trapezoid AUC, star annotation) are embedded over `ℚ` so that concrete
instances evaluate by `decide`.  Randomness is modelled by an oracle
`ω : ℕ → ℕ` supplying the successive draws of the random number generator.
-/

open Classical in
/-- Banker's rounding to an integer, as Python's builtin `round` performs on
floats: ties (fractional part exactly 1/2) go to the even neighbour. -/
noncomputable def pyRound (x : ℝ) : ℤ :=
  if Int.fract x = 1 / 2 then (if Even ⌊x⌋ then ⌊x⌋ else ⌊x⌋ + 1) else round x

/-- Python's `round(x, 3)`: round to 3 decimal places (idealised over ℝ). -/
noncomputable def round3 (x : ℝ) : ℝ := (pyRound (x * 1000) : ℝ) / 1000

namespace Curvemod

/-- The function `four_pl` of `src/curvemod/sigmoid.py`, line for line:
`return (a - b) / (1.0 + ((x / c) ** b)) + d`.  Exponentiation `**` on
positive bases is real exponentiation (`Real.rpow`, written `^` below).
Per the docstring of `Sigmoid.fit`, `a` is the bottom, `b` the slope,
`c` the midpoint (IC50) and `d` the top. -/
noncomputable def four_pl (x a b c d : ℝ) : ℝ :=
  (a - b) / (1 + (x / c) ^ b) + d

/-- The log-domain inversion value `_x` computed inside
`Sigmoid.predict._y_to_x` of `src/curvemod/sigmoid.py`:
`_x = _logic50 - (np.log10((_top - _bottom) / (_y - _bottom) - 1) / _slope)`
with `_logic50 = np.log10(_ic50)`.  Here `a = _bottom`, `b = _slope`,
`c = _ic50`, `d = _top`. -/
noncomputable def y_to_x_log (y a b c d : ℝ) : ℝ :=
  Real.logb 10 c - Real.logb 10 ((d - a) / (y - a) - 1) / b

/-- The value returned by `Sigmoid.predict._y_to_x` on the default
(`log_corr=True`, `dilution=None`) path: `round(10 ** _x, 3)`. -/
noncomputable def y_to_x (y a b c d : ℝ) : ℝ :=
  round3 ((10 : ℝ) ^ y_to_x_log y a b c d)

end Curvemod

namespace Plotty

/-- The function `four_pl` of `src/plotty/curvature.py`, line for line:
`return ((a - d) / (1.0 + ((x / c) ** b))) + d`; `a` bottom, `b` slope,
`c` midpoint, `d` top.  This is the standard 4PL formula. -/
noncomputable def four_pl (x a b c d : ℝ) : ℝ :=
  (a - d) / (1 + (x / c) ^ b) + d

end Plotty

namespace Curvemod

/-- Model of `np.random.choice(m, size=k, replace=True)`: the random number
generator is an oracle `ω` supplying the successive draws; each draw is
reduced mod `m`, which keeps every index inside {0 .. m-1} as the library
guarantees for its uniform sampling. -/
def np_random_choice (m k : ℕ) (ω : ℕ → ℕ) : List ℕ :=
  (List.range k).map (fun i => ω i % m)

/-- The index draw of `smooth` in `src/curvemod/lowess.py`:
`_samples = np.random.choice(len(x), size=50, replace=True)`.  The size
argument is the literal 50, independent of the number of observations. -/
def smooth_samples (x : List ℚ) (ω : ℕ → ℕ) : List ℕ :=
  np_random_choice x.length 50 ω

/-- The index draw of `Lowess.conf_int` in `src/curvemod/lowess2.py`:
`_sample = np.random.choice(len(self._x), len(self._x), replace=True)`. -/
def lowess2_sample (x : List ℚ) (ω : ℕ → ℕ) : List ℕ :=
  np_random_choice x.length x.length ω

/-- The resample of `ConfInt.confidence_interval` in `src/curvemod/linreg.py`:
`bootstrap = [random.choice(xys) for _ in xys]`, one random element of `xys`
per element of `xys`. -/
def linreg_bootstrap (xys : List (ℚ × ℚ)) (ω : ℕ → ℕ) : List (ℚ × ℚ) :=
  (List.range xys.length).map (fun i => xys.getD (ω i % xys.length) (0, 0))

/-- The clipping lambda of `Avipy.auc` in `src/curvemod/avipy.py`, applied to
every predicted column before the AUC step: `lambda x: 0 if x < 0 else x`. -/
def clip0 (v : ℚ) : ℚ := if v < 0 then 0 else v

/-- The trapezoid rule `np.trapz(y=values_y, x=values_x)` used by
`Avipy.auc._calculate_auc`. -/
def np_trapz : List ℚ → List ℚ → ℚ
  | y1 :: y2 :: ys, x1 :: x2 :: xs =>
      (x2 - x1) * (y1 + y2) / 2 + np_trapz (y2 :: ys) (x2 :: xs)
  | _, _ => 0

/-- The AUC pipeline of `Avipy.auc` in `src/curvemod/avipy.py`: each predicted
column is clipped to nonnegative values, then each row gets its trapezoid AUC
against the dilution grid.  A table row is the list of its predicted values;
clipping every column entrywise is the same as clipping every row entrywise. -/
def Avipy_auc (rows : List (List ℚ)) (dil : List ℚ) : List ℚ :=
  (rows.map (fun r => r.map clip0)).map (fun r => np_trapz r dil)

/-- Python's `int()` applied to a float value: truncation toward zero. -/
def pyInt (q : ℚ) : ℤ := if q < 0 then -⌊-q⌋ else ⌊q⌋

/-- Python/numpy indexing `l[i]` into a length-n axis: a negative index
counts from the end.  Reads are guarded by `pyValidIdx`. -/
def pyGet (l : List ℚ) (i : ℤ) : ℚ :=
  if 0 ≤ i then l.getD i.toNat 0 else l.getD (l.length - (-i).toNat) 0

/-- Validity of a Python index `i` on an axis of length `n`: `-n ≤ i < n`;
anything else raises IndexError. -/
abbrev pyValidIdx (n : ℕ) (i : ℤ) : Prop := -(n : ℤ) ≤ i ∧ i < (n : ℤ)

/-- The `_bound = int(self._K * (1 - interval) / 2)` of `Lowess.conf_int` in
`src/curvemod/lowess2.py`. -/
def lowess2Bound (K : ℕ) (interval : ℚ) : ℤ :=
  pyInt ((K : ℚ) * (1 - interval) / 2)

/-- Ascending sort of one grid column; `np.sort(values, axis=0)` sorts every
column of the K x G ensemble independently. -/
def sortedCol (col : List ℚ) : List ℚ := col.insertionSort (· ≤ ·)

/-- Value at one grid column of the row `_bottom = _sorted_values[_bound - 1]`
of `Lowess.conf_int` in `src/curvemod/lowess2.py`: the (bound - 1)-th order
statistic of that column (Python indexing). -/
def lowess2Lower (col : List ℚ) (K : ℕ) (interval : ℚ) : ℚ :=
  pyGet (sortedCol col) (lowess2Bound K interval - 1)

/-- Value at one grid column of the row `_top = _sorted_values[- _bound]` of
`Lowess.conf_int` in `src/curvemod/lowess2.py`. -/
def lowess2Upper (col : List ℚ) (K : ℕ) (interval : ℚ) : ℚ :=
  pyGet (sortedCol col) (-(lowess2Bound K interval))

/-- The pair `(_bottom, _top)` returned by `Lowess.conf_int` of
`src/curvemod/lowess2.py` when no Axes object is supplied.  The K x G
ensemble matrix is represented by its list of grid columns, each of length
`K = self._K`; selecting a row of the axis-0-sorted matrix reads, at each
grid column, the corresponding order statistic of that column.  A row index
out of bounds for axis 0 (as happens for `K = 0`, where `_bound - 1 = -1`)
raises IndexError, modelled by `none`. -/
def lowess2Band (cols : List (List ℚ)) (K : ℕ) (interval : ℚ) :
    Option (List ℚ × List ℚ) :=
  if pyValidIdx K (lowess2Bound K interval - 1) ∧
      pyValidIdx K (-(lowess2Bound K interval)) then
    some (cols.map (fun c => lowess2Lower c K interval),
          cols.map (fun c => lowess2Upper c K interval))
  else none

/-- Linear interpolation between adjacent order statistics of `s` at the
fractional rank `h`: the value `s[floor h] + (h - floor h) * (s[ceil h] -
s[floor h])`, numpy's default percentile interpolation. -/
def interpAt (s : List ℚ) (h : ℚ) : ℚ :=
  s.getD (Int.toNat ⌊h⌋) 0 +
    (h - ⌊h⌋) * (s.getD (Int.toNat ⌈h⌉) 0 - s.getD (Int.toNat ⌊h⌋) 0)

/-- The percentile `np.nanpercentile(values, q, axis=1)` of `Lowess.conf_int`
in `src/curvemod/lowess.py`, at one NaN-free grid column of K replicates:
the linear-interpolation percentile at fractional rank (K - 1) q / 100 of the
ascending sort. -/
def nanpercentile (col : List ℚ) (q : ℚ) : ℚ :=
  interpAt (sortedCol col) (((col.length : ℚ) - 1) * q / 100)

/-- Column mean `np.nanmean(_smooths, axis=1)` of `Lowess.conf_int` in
`src/curvemod/lowess.py`, on one NaN-free grid row of K replicate values. -/
noncomputable def nanmean (col : List ℝ) : ℝ := col.sum / col.length

/-- Column standard deviation `np.nanstd(_smooths, axis=1, ddof=0)` of
`Lowess.conf_int` in `src/curvemod/lowess.py` (the value that overwrites the
earlier `stats.sem` assignment): the square root of the mean squared
deviation, zero delta degrees of freedom. -/
noncomputable def nanstd0 (col : List ℝ) : ℝ :=
  Real.sqrt ((col.map (fun v => (v - nanmean col) ^ 2)).sum / col.length)

/-- The `_percentile = kws["interval"] / 100` of the `band == "se"` branch of
`Lowess.conf_int` in `src/curvemod/lowess.py`: the argument handed to
`stats.norm.ppf`. -/
noncomputable def sePercentile (interval : ℝ) : ℝ := interval / 100

/-- The `band == "se"` band of `Lowess.conf_int` in `src/curvemod/lowess.py`:
per grid point, mean - z * std and mean + z * std, where
`z = stats.norm.ppf(interval / 100)`.  The inverse standard normal CDF is an
external library function, abstracted as the parameter `ppf`. -/
noncomputable def se_band (ppf : ℝ → ℝ) (cols : List (List ℝ)) (interval : ℝ) :
    List ℝ × List ℝ :=
  (cols.map (fun c => nanmean c - ppf (sePercentile interval) * nanstd0 c),
   cols.map (fun c => nanmean c + ppf (sePercentile interval) * nanstd0 c))

/-- Extended-value model of a numpy double: an exact real number, one of the
two infinities, or NaN.  Signed zeros are collapsed to a single zero. -/
inductive PFloat
  | num : ℝ → PFloat
  | inf : PFloat
  | ninf : PFloat
  | nan : PFloat

/-- IEEE subtraction on the extended-value model. -/
noncomputable def psub : PFloat → PFloat → PFloat
  | PFloat.nan, _ => PFloat.nan
  | _, PFloat.nan => PFloat.nan
  | PFloat.num a, PFloat.num b => PFloat.num (a - b)
  | PFloat.num _, PFloat.inf => PFloat.ninf
  | PFloat.num _, PFloat.ninf => PFloat.inf
  | PFloat.inf, PFloat.num _ => PFloat.inf
  | PFloat.inf, PFloat.inf => PFloat.nan
  | PFloat.inf, PFloat.ninf => PFloat.inf
  | PFloat.ninf, PFloat.num _ => PFloat.ninf
  | PFloat.ninf, PFloat.inf => PFloat.ninf
  | PFloat.ninf, PFloat.ninf => PFloat.nan

open Classical in
/-- IEEE division on the extended-value model, as numpy performs it: a finite
value divided by zero gives a signed infinity (0/0 gives NaN) together with
a RuntimeWarning, never an exception. -/
noncomputable def pdiv : PFloat → PFloat → PFloat
  | PFloat.nan, _ => PFloat.nan
  | _, PFloat.nan => PFloat.nan
  | PFloat.num a, PFloat.num b =>
      if b = 0 then
        (if 0 < a then PFloat.inf else if a < 0 then PFloat.ninf else PFloat.nan)
      else PFloat.num (a / b)
  | PFloat.num _, PFloat.inf => PFloat.num 0
  | PFloat.num _, PFloat.ninf => PFloat.num 0
  | PFloat.inf, PFloat.num b => if 0 ≤ b then PFloat.inf else PFloat.ninf
  | PFloat.inf, _ => PFloat.nan
  | PFloat.ninf, PFloat.num b => if 0 ≤ b then PFloat.ninf else PFloat.inf
  | PFloat.ninf, _ => PFloat.nan

open Classical in
/-- Base-10 logarithm `np.log10` on the extended-value model: NaN (with a
RuntimeWarning) on negative inputs, minus infinity at zero. -/
noncomputable def np_log10 : PFloat → PFloat
  | PFloat.num x =>
      if 0 < x then PFloat.num (Real.logb 10 x)
      else if x = 0 then PFloat.ninf else PFloat.nan
  | PFloat.inf => PFloat.inf
  | PFloat.ninf => PFloat.nan
  | PFloat.nan => PFloat.nan

/-- The power `10 ** _x` on the extended-value model. -/
noncomputable def pow10 : PFloat → PFloat
  | PFloat.num x => PFloat.num ((10 : ℝ) ^ x)
  | PFloat.inf => PFloat.inf
  | PFloat.ninf => PFloat.num 0
  | PFloat.nan => PFloat.nan

/-- Python's `round(v, 3)` on the extended-value model: NaN and the
infinities round to themselves. -/
noncomputable def roundf3 : PFloat → PFloat
  | PFloat.num x => PFloat.num (round3 x)
  | PFloat.inf => PFloat.inf
  | PFloat.ninf => PFloat.ninf
  | PFloat.nan => PFloat.nan

/-- Float-level model of `Sigmoid.predict._y_to_x` (default path) of
`src/curvemod/sigmoid.py`, tracking the numpy special values:
`_logic50 = np.log10(_ic50)`;
`_x = _logic50 - (np.log10((_top - _bottom) / (_y - _bottom) - 1) / _slope)`;
`return round(10 ** _x, 3)`.  All operands are numpy doubles, so division by
zero and logarithms of nonpositive numbers produce infinities or NaN with a
RuntimeWarning; no exception is raised anywhere and the module defines no
error type. -/
noncomputable def y_to_x_float (y a b c d : ℝ) : PFloat :=
  roundf3 (pow10 (psub (np_log10 (PFloat.num c))
    (pdiv (np_log10 (psub (pdiv (psub (PFloat.num d) (PFloat.num a))
      (psub (PFloat.num y) (PFloat.num a))) (PFloat.num 1)))
      (PFloat.num b))))

end Curvemod

namespace Plotty

/-- Model of a Python float input to `starsig`: either an exact rational
value or NaN. -/
inductive PyFloat
  | num : ℚ → PyFloat
  | nan : PyFloat
deriving DecidableEq

/-- Python float comparison `a > b`, false whenever a side is NaN. -/
def pygt : PyFloat → PyFloat → Bool
  | PyFloat.num a, PyFloat.num b => decide (b < a)
  | _, _ => false

/-- Python float comparison `a >= b`, false whenever a side is NaN. -/
def pyge : PyFloat → PyFloat → Bool
  | PyFloat.num a, PyFloat.num b => decide (b ≤ a)
  | _, _ => false

/-- Python float comparison `a <= b`, false whenever a side is NaN. -/
def pyle : PyFloat → PyFloat → Bool
  | PyFloat.num a, PyFloat.num b => decide (a ≤ b)
  | _, _ => false

/-- Return string of `starsig` for non-significant values. -/
def sNS : String := "ns"

/-- Return string of `starsig` for one star. -/
def sStar1 : String := "*"

/-- Return string of `starsig` for two stars. -/
def sStar2 : String := "**"

/-- Return string of `starsig` for three stars. -/
def sStar3 : String := "***"

/-- Return string of `starsig` for four stars. -/
def sStar4 : String := "****"

/-- `PlotUtils.starsig` of `src/plotty/utils.py`, line for line.  Python's
chained comparison `x >= v > y` is `(x >= v) and (v > y)`.  The if-chain has
no final else, so an input for which every comparison is false (NaN) falls
through and returns Python's implicit `None`, modelled as `none`.  The
decimal literals are taken exact. -/
def starsig (v : PyFloat) : Option String :=
  if pygt v (PyFloat.num (5 / 100)) then some sNS
  else if pyge (PyFloat.num (5 / 100)) v && pygt v (PyFloat.num (1 / 100)) then some sStar1
  else if pyge (PyFloat.num (1 / 100)) v && pygt v (PyFloat.num (1 / 1000)) then some sStar2
  else if pyge (PyFloat.num (1 / 1000)) v && pygt v (PyFloat.num (1 / 10000)) then some sStar3
  else if pyle v (PyFloat.num (1 / 10000)) then some sStar4
  else none

end Plotty

/-- Rounding to three decimals fixes every integer value. -/
theorem round3_intCast (n : ℤ) : round3 ((n : ℝ)) = (n : ℝ) := by
  have h1 : ((n : ℝ) * 1000) = (((n * 1000 : ℤ) : ℝ)) := by push_cast; ring
  unfold round3 pyRound
  rw [h1, Int.fract_intCast]
  rw [if_neg (by norm_num)]
  rw [round_intCast]
  push_cast
  ring

/-- Evaluation of the sigmoid-module 4PL at the concrete tuple of claim C3:
bottom 0, slope 1, midpoint 10, top 100, at x equal to the midpoint. -/
theorem sigmoid_four_pl_at_midpoint : Curvemod.four_pl 10 0 1 10 100 = 199 / 2 := by
  unfold Curvemod.four_pl
  rw [show (10 : ℝ) / 10 = 1 by norm_num, Real.one_rpow]
  norm_num

/-- C3.  The spec requires 4PL evaluation at the midpoint to give
(bottom + top)/2, concretely 50 for (0, 1, 10, 100).  The `four_pl` of
`src/plotty/curvature.py` satisfies this for every parameter tuple with a
nonzero midpoint; the `four_pl` of `src/curvemod/sigmoid.py` instead returns
(bottom - slope)/2 + top, concretely 199/2 = 99.5, because its numerator
reads `a - b` (bottom minus slope) where the standard formula has `a - d`:
the code contradicts the spec's concrete scenario and its own module. -/
theorem four_pl_midpoint_value :
    (∀ a b c d : ℝ, c ≠ 0 → Plotty.four_pl c a b c d = (a + d) / 2) ∧
    Curvemod.four_pl 10 0 1 10 100 = 199 / 2 ∧ ((199 : ℝ) / 2 ≠ 50) := by
  refine ⟨?_, sigmoid_four_pl_at_midpoint, by norm_num⟩
  intro a b c d hc
  unfold Plotty.four_pl
  rw [div_self hc, Real.one_rpow]
  ring

/-- Witness for `four_pl_midpoint_value` at the spec's concrete tuple. -/
theorem four_pl_midpoint_value_witness :
    (10 : ℝ) ≠ 0 ∧ Plotty.four_pl 10 0 1 10 100 = (0 + 100) / 2 :=
  ⟨by norm_num, four_pl_midpoint_value.1 0 1 10 100 (by norm_num)⟩

/-- C1.  Round-trip of the sigmoid module: evaluating `four_pl` of
`src/curvemod/sigmoid.py` at x = 10 with parameters (bottom 0, slope 1,
midpoint 10, top 100) and inverting the result through
`Sigmoid.predict._y_to_x` returns 1990, not (approximately) 10: the
inversion in `predict` inverts the standard 4PL while `four_pl` computes
the `(a - b)` variant, so the round-trip law fails by a factor of 199. -/
theorem sigmoid_roundtrip_fails :
    Curvemod.y_to_x (Curvemod.four_pl 10 0 1 10 100) 0 1 10 100 = 1990 ∧
    ((1990 : ℝ) ≠ 10) := by
  constructor
  · rw [sigmoid_four_pl_at_midpoint]
    unfold Curvemod.y_to_x Curvemod.y_to_x_log
    rw [show ((100 : ℝ) - 0) / (199 / 2 - 0) - 1 = (199 : ℝ)⁻¹ by norm_num]
    rw [Real.logb_inv, Real.logb_self_eq_one (by norm_num)]
    rw [show (1 : ℝ) - -Real.logb 10 199 / 1 = 1 + Real.logb 10 199 by ring]
    rw [Real.rpow_add (by norm_num), Real.rpow_one,
      Real.rpow_logb (by norm_num) (by norm_num) (by norm_num)]
    rw [show (10 : ℝ) * 199 = ((1990 : ℤ) : ℝ) by norm_num]
    rw [round3_intCast]
    norm_num
  · norm_num

/-- C2, counterexample.  At the fitted tuple (bottom 0, slope 2, midpoint 10,
top 100) and target y = 20, the inversion of `Sigmoid.predict` returns 5,
while the claimed closed form midpoint * ((top - bottom)/(y - bottom) - 1)
to the power 1/slope equals 20: the claim's exponent has the wrong sign. -/
theorem predict_formula_counterexample :
    Curvemod.y_to_x 20 0 2 10 100 = 5 ∧
    10 * (((100 : ℝ) - 0) / (20 - 0) - 1) ^ ((1 : ℝ) / 2) = 20 ∧
    ((5 : ℝ) ≠ 20) := by
  have hsqrt : (4 : ℝ) ^ ((1 : ℝ) / 2) = 2 := by
    rw [show (4 : ℝ) = (2 : ℝ) ^ (2 : ℕ) by norm_num, ← Real.rpow_natCast 2 2,
      ← Real.rpow_mul (by norm_num)]
    push_cast
    rw [show (2 : ℝ) * (1 / 2) = 1 by norm_num, Real.rpow_one]
  refine ⟨?_, ?_, by norm_num⟩
  · unfold Curvemod.y_to_x Curvemod.y_to_x_log
    rw [show ((100 : ℝ) - 0) / (20 - 0) - 1 = (4 : ℝ) by norm_num]
    rw [Real.logb_self_eq_one (by norm_num)]
    rw [show (1 : ℝ) - Real.logb 10 4 / 2 = 1 - Real.logb 10 4 * (1 / 2) by ring]
    rw [Real.rpow_sub (by norm_num), Real.rpow_one]
    rw [Real.rpow_mul (by norm_num : (0 : ℝ) ≤ 10)]
    rw [Real.rpow_logb (by norm_num) (by norm_num) (by norm_num : (0 : ℝ) < 4)]
    rw [hsqrt]
    rw [show (10 : ℝ) / 2 = ((5 : ℤ) : ℝ) by norm_num]
    rw [round3_intCast]
    norm_num
  · rw [show ((100 : ℝ) - 0) / (20 - 0) - 1 = (4 : ℝ) by norm_num, hsqrt]
    norm_num

/-- C2, amended.  On the valid inversion domain (positive midpoint, nonzero
slope, positive log argument) the value returned by `Sigmoid.predict._y_to_x`
is midpoint * ((top - bottom)/(y - bottom) - 1) ^ (-(1/slope)), rounded to
three decimals: the reciprocal-power closed form, not the claimed positive
power. -/
theorem predict_closed_form (y a b c d : ℝ) (hc : 0 < c) (_hb : b ≠ 0)
    (hR : 0 < (d - a) / (y - a) - 1) :
    Curvemod.y_to_x y a b c d =
      round3 (c * ((d - a) / (y - a) - 1) ^ (-(1 / b))) := by
  unfold Curvemod.y_to_x Curvemod.y_to_x_log
  congr 1
  have h10 : (0 : ℝ) < 10 := by norm_num
  rw [Real.rpow_sub h10]
  rw [Real.rpow_logb h10 (by norm_num) hc]
  rw [show Real.logb 10 ((d - a) / (y - a) - 1) / b =
        Real.logb 10 ((d - a) / (y - a) - 1) * (1 / b) by ring]
  rw [Real.rpow_mul (le_of_lt h10)]
  rw [Real.rpow_logb h10 (by norm_num) hR]
  rw [Real.rpow_neg (le_of_lt hR), div_eq_mul_inv]

/-- Witness for `predict_closed_form` at y = 20 with tuple (0, 2, 10, 100). -/
theorem predict_closed_form_witness :
    (0 : ℝ) < 10 ∧ (2 : ℝ) ≠ 0 ∧ (0 : ℝ) < ((100 : ℝ) - 0) / (20 - 0) - 1 ∧
    Curvemod.y_to_x 20 0 2 10 100 =
      round3 (10 * (((100 : ℝ) - 0) / (20 - 0) - 1) ^ (-(1 / (2 : ℝ)))) :=
  ⟨by norm_num, by norm_num, by norm_num,
    predict_closed_form 20 0 2 10 100 (by norm_num) (by norm_num) (by norm_num)⟩

/-- C4, counterexample.  On six observations the `smooth` resampler of
`src/curvemod/lowess.py` draws 50 indices, not six: the resample size is not
the observation count. -/
theorem smooth_resample_size_counterexample :
    (Curvemod.smooth_samples [1, 2, 3, 4, 5, 6] (fun _ => 0)).length ≠
      ([1, 2, 3, 4, 5, 6] : List ℚ).length := by
  decide

/-- C4, amended.  The linreg and lowess2 bootstrap loops resample exactly n
pairs and n indices respectively (n the observation count), but the `smooth`
resampler of `src/curvemod/lowess.py` always draws the literal 50 indices,
whatever the observation count. -/
theorem bootstrap_resample_sizes :
    (∀ (xys : List (ℚ × ℚ)) (ω : ℕ → ℕ),
      (Curvemod.linreg_bootstrap xys ω).length = xys.length) ∧
    (∀ (x : List ℚ) (ω : ℕ → ℕ),
      (Curvemod.lowess2_sample x ω).length = x.length) ∧
    (∀ (x : List ℚ) (ω : ℕ → ℕ),
      (Curvemod.smooth_samples x ω).length = 50) := by
  refine ⟨?_, ?_, ?_⟩ <;> intro l ω <;>
    simp [Curvemod.linreg_bootstrap, Curvemod.lowess2_sample,
      Curvemod.smooth_samples, Curvemod.np_random_choice]

/-- C9, counterexample.  A row whose fitted prediction is negative at the
first dilution: `Avipy.auc` returns AUC 1 after zeroing the negative value,
while the trapezoid over the raw predicted values is 0, so the AUC is not
computed from the predictions exactly as the linear fit returned them. -/
theorem auc_clipping_counterexample :
    Curvemod.Avipy_auc [[-2, 2]] [1, 2] = [1] ∧
    Curvemod.np_trapz [-2, 2] [1, 2] = 0 ∧ ((1 : ℚ) ≠ 0) :=
  ⟨by norm_num [Curvemod.Avipy_auc, Curvemod.np_trapz, Curvemod.clip0],
   by norm_num [Curvemod.np_trapz], by norm_num⟩

/-- C9, amended.  `Avipy.auc` replaces every negative predicted value by 0
before the trapezoid step, so each row's AUC is the trapezoid of the clipped
predictions; it agrees with the trapezoid of the raw predictions exactly
when clipping leaves the row unchanged (no negative prediction). -/
theorem auc_zeroes_negative_predictions :
    (∀ (rows : List (List ℚ)) (dil : List ℚ),
      Curvemod.Avipy_auc rows dil =
        rows.map (fun r => Curvemod.np_trapz (r.map Curvemod.clip0) dil)) ∧
    (∀ (r dil : List ℚ), r.map Curvemod.clip0 = r →
      Curvemod.Avipy_auc [r] dil = [Curvemod.np_trapz r dil]) := by
  constructor
  · intro rows dil
    simp [Curvemod.Avipy_auc]
  · intro r dil h
    simp [Curvemod.Avipy_auc, h]

/-- Witness for `auc_zeroes_negative_predictions` on a nonnegative row. -/
theorem auc_zeroes_negative_predictions_witness :
    ([1, 2] : List ℚ).map Curvemod.clip0 = [1, 2] ∧
    Curvemod.Avipy_auc [[1, 2]] [1, 2] = [Curvemod.np_trapz [1, 2] [1, 2]] :=
  ⟨by decide, auc_zeroes_negative_predictions.2 [1, 2] [1, 2] (by decide)⟩

/-- Normal form of `starsig` on a numeric input: a five-way threshold
cascade. -/
theorem starsig_num_eq (q : ℚ) :
    Plotty.starsig (Plotty.PyFloat.num q) =
      (if 5 / 100 < q then some Plotty.sNS
       else if 1 / 100 < q then some Plotty.sStar1
       else if 1 / 1000 < q then some Plotty.sStar2
       else if 1 / 10000 < q then some Plotty.sStar3
       else some Plotty.sStar4) := by
  unfold Plotty.starsig
  simp only [Plotty.pygt, Plotty.pyge, Plotty.pyle, Bool.and_eq_true,
    decide_eq_true_eq]
  rcases lt_or_le (5 / 100 : ℚ) q with h1 | h1
  · rw [if_pos h1, if_pos h1]
  · rw [if_neg (not_lt.2 h1), if_neg (not_lt.2 h1)]
    rcases lt_or_le (1 / 100 : ℚ) q with h2 | h2
    · rw [if_pos ⟨h1, h2⟩, if_pos h2]
    · rw [if_neg (fun hc => absurd hc.2 (not_lt.2 h2)), if_neg (not_lt.2 h2)]
      rcases lt_or_le (1 / 1000 : ℚ) q with h3 | h3
      · rw [if_pos ⟨h2, h3⟩, if_pos h3]
      · rw [if_neg (fun hc => absurd hc.2 (not_lt.2 h3)), if_neg (not_lt.2 h3)]
        rcases lt_or_le (1 / 10000 : ℚ) q with h4 | h4
        · rw [if_pos ⟨h3, h4⟩, if_pos h4]
        · rw [if_neg (fun hc => absurd hc.2 (not_lt.2 h4)),
            if_neg (not_lt.2 h4), if_pos h4]

/-- C10.  `PlotUtils.starsig` partitions the numeric inputs: it returns
each of the five strings exactly on the claimed interval, always returns
some string on a number, and returns None on NaN (every branch comparison
is false there). -/
theorem starsig_partition :
    (∀ q : ℚ,
      (Plotty.starsig (Plotty.PyFloat.num q) = some Plotty.sNS ↔ 5 / 100 < q) ∧
      (Plotty.starsig (Plotty.PyFloat.num q) = some Plotty.sStar1 ↔
        1 / 100 < q ∧ q ≤ 5 / 100) ∧
      (Plotty.starsig (Plotty.PyFloat.num q) = some Plotty.sStar2 ↔
        1 / 1000 < q ∧ q ≤ 1 / 100) ∧
      (Plotty.starsig (Plotty.PyFloat.num q) = some Plotty.sStar3 ↔
        1 / 10000 < q ∧ q ≤ 1 / 1000) ∧
      (Plotty.starsig (Plotty.PyFloat.num q) = some Plotty.sStar4 ↔
        q ≤ 1 / 10000) ∧
      (Plotty.starsig (Plotty.PyFloat.num q)).isSome = true) ∧
    Plotty.starsig Plotty.PyFloat.nan = none := by
  constructor
  · intro q
    rw [starsig_num_eq]
    rcases lt_or_le (5 / 100 : ℚ) q with h1 | h1
    · rw [if_pos h1]
      refine ⟨iff_of_true rfl h1, iff_of_false (by decide) ?_,
        iff_of_false (by decide) ?_, iff_of_false (by decide) ?_,
        iff_of_false (by decide) ?_, rfl⟩
      · exact fun hc => absurd h1 (not_lt.2 hc.2)
      · exact fun hc => absurd h1 (not_lt.2 (le_trans hc.2 (by norm_num)))
      · exact fun hc => absurd h1 (not_lt.2 (le_trans hc.2 (by norm_num)))
      · exact fun hc => absurd h1 (not_lt.2 (le_trans hc (by norm_num)))
    · rw [if_neg (not_lt.2 h1)]
      rcases lt_or_le (1 / 100 : ℚ) q with h2 | h2
      · rw [if_pos h2]
        refine ⟨iff_of_false (by decide) (not_lt.2 h1),
          iff_of_true rfl ⟨h2, h1⟩, iff_of_false (by decide) ?_,
          iff_of_false (by decide) ?_, iff_of_false (by decide) ?_, rfl⟩
        · exact fun hc => absurd h2 (not_lt.2 hc.2)
        · exact fun hc => absurd h2 (not_lt.2 (le_trans hc.2 (by norm_num)))
        · exact fun hc => absurd h2 (not_lt.2 (le_trans hc (by norm_num)))
      · rw [if_neg (not_lt.2 h2)]
        rcases lt_or_le (1 / 1000 : ℚ) q with h3 | h3
        · rw [if_pos h3]
          refine ⟨iff_of_false (by decide) (not_lt.2 h1),
            iff_of_false (by decide) ?_, iff_of_true rfl ⟨h3, h2⟩,
            iff_of_false (by decide) ?_, iff_of_false (by decide) ?_, rfl⟩
          · exact fun hc => absurd hc.1 (not_lt.2 h2)
          · exact fun hc => absurd h3 (not_lt.2 hc.2)
          · exact fun hc => absurd h3 (not_lt.2 (le_trans hc (by norm_num)))
        · rw [if_neg (not_lt.2 h3)]
          rcases lt_or_le (1 / 10000 : ℚ) q with h4 | h4
          · rw [if_pos h4]
            refine ⟨iff_of_false (by decide) (not_lt.2 h1),
              iff_of_false (by decide) ?_, iff_of_false (by decide) ?_,
              iff_of_true rfl ⟨h4, h3⟩,
              iff_of_false (by decide) (not_le.2 h4), rfl⟩
            · exact fun hc => absurd hc.1 (not_lt.2 h2)
            · exact fun hc => absurd hc.1 (not_lt.2 h3)
          · rw [if_neg (not_lt.2 h4)]
            refine ⟨iff_of_false (by decide) (not_lt.2 h1),
              iff_of_false (by decide) ?_, iff_of_false (by decide) ?_,
              iff_of_false (by decide) ?_, iff_of_true rfl h4, rfl⟩
            · exact fun hc => absurd hc.1 (not_lt.2 h2)
            · exact fun hc => absurd hc.1 (not_lt.2 h3)
            · exact fun hc => absurd hc.1 (not_lt.2 h4)
  · rfl

/-- Sorting one column preserves its length. -/
theorem sortedCol_length (col : List ℚ) :
    (Curvemod.sortedCol col).length = col.length :=
  (List.perm_insertionSort _ col).length_eq

/-- The sorted column is sorted ascending. -/
theorem sortedCol_sorted (col : List ℚ) :
    (Curvemod.sortedCol col).Sorted (· ≤ ·) :=
  List.sorted_insertionSort _ col

/-- Entries of a sorted list read through `getD` are monotone in the index. -/
theorem sorted_getD_mono {l : List ℚ} (hl : l.Sorted (· ≤ ·)) {i j : ℕ}
    (hij : i ≤ j) (hj : j < l.length) : l.getD i 0 ≤ l.getD j 0 := by
  have hi : i < l.length := lt_of_le_of_lt hij hj
  rw [List.getD_eq_getElem l 0 hi, List.getD_eq_getElem l 0 hj]
  have h2 : l.get ⟨i, hi⟩ ≤ l.get ⟨j, hj⟩ :=
    hl.rel_get_of_le (Fin.mk_le_mk.2 hij)
  simpa using h2

/-- Evaluation rule for the truncated bound of lowess2's percentile band on
nonnegative arguments. -/
theorem lowess2Bound_eq (K : ℕ) (interval : ℚ) (z : ℤ)
    (h1 : 0 ≤ (K : ℚ) * (1 - interval) / 2)
    (h2 : (z : ℚ) ≤ (K : ℚ) * (1 - interval) / 2)
    (h3 : (K : ℚ) * (1 - interval) / 2 < z + 1) :
    Curvemod.lowess2Bound K interval = z := by
  unfold Curvemod.lowess2Bound Curvemod.pyInt
  rw [if_neg (not_lt.2 h1)]
  exact Int.floor_eq_iff.2 ⟨h2, h3⟩

/-- C6, counterexample.  A bootstrap ensemble of K = 1 replicate over three
grid points: `Lowess.conf_int` of `src/curvemod/lowess2.py` returns the
degenerate band (the single replicate twice) instead of failing with an
InsufficientReplicates error (no such error exists in the codebase). -/
theorem lowess2_K1_returns_band :
    Curvemod.lowess2Band [[5], [7], [9]] 1 (95 / 100) =
      some ([5, 7, 9], [5, 7, 9]) := by
  have hb : Curvemod.lowess2Bound 1 (95 / 100) = 0 :=
    lowess2Bound_eq 1 (95 / 100) 0 (by norm_num) (by norm_num) (by norm_num)
  unfold Curvemod.lowess2Band
  rw [hb]
  rw [if_pos (by decide : Curvemod.pyValidIdx 1 ((0 : ℤ) - 1) ∧
    Curvemod.pyValidIdx 1 (-(0 : ℤ)))]
  unfold Curvemod.lowess2Lower Curvemod.lowess2Upper
  rw [hb]
  rfl

/-- C6, amended.  For K = 0 replicates, `Lowess.conf_int` of lowess2.py
fails with an uncaught IndexError (row index -1 on an empty axis), not with
InsufficientReplicates; for K = 1 and any confidence level in (0, 1) it
returns the degenerate band consisting of the single replicate row twice. -/
theorem lowess2_small_K_behavior :
    (∀ (cols : List (List ℚ)) (interval : ℚ),
      Curvemod.lowess2Band cols 0 interval = none) ∧
    (∀ (cols : List (List ℚ)) (interval : ℚ), 0 < interval → interval < 1 →
      cols.all (fun c => c.length == 1) = true →
      Curvemod.lowess2Band cols 1 interval =
        some (cols.map (fun c => c.getD 0 0), cols.map (fun c => c.getD 0 0))) := by
  constructor
  · intro cols interval
    have hb : Curvemod.lowess2Bound 0 interval = 0 := by
      unfold Curvemod.lowess2Bound Curvemod.pyInt
      norm_num
    unfold Curvemod.lowess2Band
    rw [hb]
    rw [if_neg]
    rintro ⟨⟨ha, -⟩, -⟩
    norm_num at ha
  · intro cols interval h0 h1 hall
    have hb : Curvemod.lowess2Bound 1 interval = 0 := by
      unfold Curvemod.lowess2Bound Curvemod.pyInt
      have harg : ((1 : ℕ) : ℚ) * (1 - interval) / 2 = (1 - interval) / 2 := by
        push_cast; ring
      rw [harg, if_neg (by linarith : ¬((1 - interval) / 2 < 0))]
      rw [Int.floor_eq_zero_iff]
      constructor
      · linarith
      · linarith
    have hlen : ∀ c ∈ cols, c.length = 1 := by
      intro c hc
      simpa using List.all_eq_true.1 hall c hc
    unfold Curvemod.lowess2Band
    rw [hb]
    have hcond : Curvemod.pyValidIdx 1 ((0 : ℤ) - 1) ∧
        Curvemod.pyValidIdx 1 (-(0 : ℤ)) := by decide
    rw [if_pos hcond]
    have hlow : ∀ c ∈ cols, Curvemod.lowess2Lower c 1 interval = c.getD 0 0 := by
      intro c hc
      obtain ⟨a, rfl⟩ := List.length_eq_one.1 (hlen c hc)
      unfold Curvemod.lowess2Lower
      rw [hb]
      rfl
    have hup : ∀ c ∈ cols, Curvemod.lowess2Upper c 1 interval = c.getD 0 0 := by
      intro c hc
      obtain ⟨a, rfl⟩ := List.length_eq_one.1 (hlen c hc)
      unfold Curvemod.lowess2Upper
      rw [hb]
      rfl
    rw [List.map_congr_left hlow, List.map_congr_left hup]

/-- Witness for `lowess2_small_K_behavior` on a K = 1, single-column
ensemble at 95 percent confidence. -/
theorem lowess2_small_K_behavior_witness :
    (0 : ℚ) < 95 / 100 ∧ (95 / 100 : ℚ) < 1 ∧
    ([[(5 : ℚ)]].all (fun c => c.length == 1) = true) ∧
    Curvemod.lowess2Band [[(5 : ℚ)]] 1 (95 / 100) = some ([5], [5]) :=
  ⟨by norm_num, by norm_num, by decide,
    lowess2_small_K_behavior.2 [[(5 : ℚ)]] (95 / 100) (by norm_num)
      (by norm_num) (by decide)⟩

/-- Truncation agrees with the floor on nonnegative arguments. -/
theorem pyInt_eq_floor {q : ℚ} (h : 0 ≤ q) : Curvemod.pyInt q = ⌊q⌋ := by
  unfold Curvemod.pyInt
  exact if_neg (not_lt.2 h)

/-- The interpolated percentile value lies between the two adjacent order
statistics it interpolates. -/
theorem interpAt_bounds {s : List ℚ} (hs : s.Sorted (· ≤ ·)) {h : ℚ}
    (h0 : 0 ≤ h) (hn : h ≤ (s.length : ℚ) - 1) :
    s.getD (Int.toNat ⌊h⌋) 0 ≤ Curvemod.interpAt s h ∧
    Curvemod.interpAt s h ≤ s.getD (Int.toNat ⌈h⌉) 0 := by
  have hlen1 : 1 ≤ s.length := by
    rcases Nat.eq_zero_or_pos s.length with h9 | h9
    · rw [h9] at hn
      norm_num at hn
      linarith
    · exact h9
  have hfl0 : 0 ≤ ⌊h⌋ := Int.floor_nonneg.2 h0
  have hceil_le : ⌈h⌉ ≤ (s.length : ℤ) - 1 := by
    rw [Int.ceil_le]
    push_cast
    exact hn
  have hceil_lt : Int.toNat ⌈h⌉ < s.length := by omega
  have hflc : Int.toNat ⌊h⌋ ≤ Int.toNat ⌈h⌉ := by
    have := Int.floor_le_ceil h
    omega
  have hsfc : s.getD (Int.toNat ⌊h⌋) 0 ≤ s.getD (Int.toNat ⌈h⌉) 0 :=
    sorted_getD_mono hs hflc hceil_lt
  have hf0 : 0 ≤ h - ⌊h⌋ := by
    have := Int.floor_le h
    linarith
  have hf1 : h - ⌊h⌋ ≤ 1 := by
    have := Int.lt_floor_add_one h
    linarith
  constructor
  · unfold Curvemod.interpAt
    linarith [mul_nonneg hf0 (sub_nonneg.2 hsfc)]
  · unfold Curvemod.interpAt
    linarith [mul_le_mul_of_nonneg_right hf1 (sub_nonneg.2 hsfc)]

/-- The linear-interpolation percentile is monotone in the fractional rank
over a sorted list. -/
theorem interpAt_mono {s : List ℚ} (hs : s.Sorted (· ≤ ·)) {g1 g2 : ℚ}
    (h0 : 0 ≤ g1) (h12 : g1 ≤ g2) (hn : g2 ≤ (s.length : ℚ) - 1) :
    Curvemod.interpAt s g1 ≤ Curvemod.interpAt s g2 := by
  have h02 : 0 ≤ g2 := le_trans h0 h12
  have hn1 : g1 ≤ (s.length : ℚ) - 1 := le_trans h12 hn
  have hb1 := interpAt_bounds hs h0 hn1
  have hb2 := interpAt_bounds hs h02 hn
  have hlen1 : 1 ≤ s.length := by
    rcases Nat.eq_zero_or_pos s.length with h9 | h9
    · exfalso
      rw [h9] at hn
      norm_num at hn
      linarith
    · exact h9
  rcases eq_or_lt_of_le (Int.floor_le_floor h12) with hff | hff
  · by_cases heq2 : g2 = (⌊g2⌋ : ℚ)
    · have he12 : g1 = g2 := by
        have hfl1 : (⌊g1⌋ : ℚ) ≤ g1 := Int.floor_le g1
        rw [hff] at hfl1
        exact le_antisymm h12 (by linarith [heq2.le])
      rw [he12]
    · by_cases heq1 : g1 = (⌊g1⌋ : ℚ)
      · have hz : g1 - (⌊g1⌋ : ℚ) = 0 := sub_eq_zero_of_eq heq1
        have hv : Curvemod.interpAt s g1 = s.getD (Int.toNat ⌊g1⌋) 0 := by
          unfold Curvemod.interpAt
          rw [hz, zero_mul, add_zero]
        rw [hv, hff]
        exact hb2.1
      · have hc1 : ⌈g1⌉ = ⌊g1⌋ + 1 := by
          rw [Int.ceil_eq_iff]
          constructor
          · push_cast
            rcases lt_or_eq_of_le (Int.floor_le g1) with hlt | he
            · linarith
            · exact absurd he.symm heq1
          · push_cast
            linarith [Int.lt_floor_add_one g1]
        have hc2 : ⌈g2⌉ = ⌊g2⌋ + 1 := by
          rw [Int.ceil_eq_iff]
          constructor
          · push_cast
            rcases lt_or_eq_of_le (Int.floor_le g2) with hlt | he
            · linarith
            · exact absurd he.symm heq2
          · push_cast
            linarith [Int.lt_floor_add_one g2]
        have hceil2_le : ⌈g2⌉ ≤ (s.length : ℤ) - 1 := by
          rw [Int.ceil_le]
          push_cast
          exact hn
        have hfl0 : 0 ≤ ⌊g1⌋ := Int.floor_nonneg.2 h0
        have hidx : Int.toNat (⌊g2⌋ + 1) < s.length := by omega
        have hsfc : s.getD (Int.toNat ⌊g2⌋) 0 ≤ s.getD (Int.toNat (⌊g2⌋ + 1)) 0 :=
          sorted_getD_mono hs (by omega) hidx
        unfold Curvemod.interpAt
        rw [hc1, hc2, hff]
        have hmul := mul_le_mul_of_nonneg_right
          (by linarith : g1 - (⌊g2⌋ : ℚ) ≤ g2 - (⌊g2⌋ : ℚ)) (sub_nonneg.2 hsfc)
        linarith [hmul]
  · have hflc1 : ⌈g1⌉ ≤ ⌊g1⌋ + 1 := Int.ceil_le_floor_add_one g1
    have hfl0 : 0 ≤ ⌊g1⌋ := Int.floor_nonneg.2 h0
    have hfl2_le : ⌊g2⌋ ≤ (s.length : ℤ) - 1 := by
      have hle : (⌊g2⌋ : ℚ) ≤ (s.length : ℚ) - 1 := le_trans (Int.floor_le g2) hn
      exact_mod_cast hle
    have hj : Int.toNat ⌊g2⌋ < s.length := by omega
    have hij : Int.toNat ⌈g1⌉ ≤ Int.toNat ⌊g2⌋ := by omega
    calc Curvemod.interpAt s g1 ≤ s.getD (Int.toNat ⌈g1⌉) 0 := hb1.2
      _ ≤ s.getD (Int.toNat ⌊g2⌋) 0 := sorted_getD_mono hs hij hj
      _ ≤ Curvemod.interpAt s g2 := hb2.1

/-- C5, counterexample.  K = 4 replicates with values 0, 1, 2, 3 at a single
grid point and confidence 0.95: `int(K * (1 - interval)/2)` is 0, so lowess2's
`conf_int` returns lower = `sorted[-1]` = 3 (the maximum) and upper =
`sorted[0]` = 0 (the minimum) - the band bounds are swapped, violating
lower <= upper for a K >= 4 ensemble with confidence in (0, 1). -/
theorem lowess2_band_swapped :
    Curvemod.lowess2Band [[0, 1, 2, 3]] 4 (19 / 20) = some ([3], [0]) ∧
    ¬((3 : ℚ) ≤ 0) := by
  constructor
  · have hb : Curvemod.lowess2Bound 4 (19 / 20) = 0 :=
      lowess2Bound_eq 4 (19 / 20) 0 (by norm_num) (by norm_num) (by norm_num)
    unfold Curvemod.lowess2Band
    rw [hb]
    rw [if_pos (by decide : Curvemod.pyValidIdx 4 ((0 : ℤ) - 1) ∧
      Curvemod.pyValidIdx 4 (-(0 : ℤ)))]
    unfold Curvemod.lowess2Lower Curvemod.lowess2Upper
    rw [hb]
    rfl
  · norm_num

/-- C5, amended.  The percentile band satisfies lower <= upper at every grid
point under the extra condition that the truncated rank
`int(K * (1 - interval)/2)` is at least 1 (part one, lowess2.py's sorted-index
band, stated per grid column); lowess.py's `np.nanpercentile` band satisfies
it whenever the column is nonempty and the interval lies in (0, 100) (part
two), because the interpolated percentile is monotone in the rank.  Without
the extra condition the lowess2 band swaps its bounds, as the counterexample
shows. -/
theorem percentile_band_ordered :
    (∀ (col : List ℚ) (K : ℕ) (interval : ℚ), col.length = K →
      0 < interval → interval < 1 → 1 ≤ Curvemod.lowess2Bound K interval →
      Curvemod.lowess2Lower col K interval ≤ Curvemod.lowess2Upper col K interval) ∧
    (∀ (col : List ℚ) (interval : ℚ), col ≠ [] → 0 < interval → interval < 100 →
      Curvemod.nanpercentile col ((100 - interval) / 2) ≤
        Curvemod.nanpercentile col (100 - (100 - interval) / 2)) := by
  constructor
  · intro col K interval hlen h0 h1 hb1
    set b := Curvemod.lowess2Bound K interval with hbdef
    have harg0 : (0 : ℚ) ≤ (K : ℚ) * (1 - interval) / 2 := by
      apply div_nonneg _ (by norm_num)
      exact mul_nonneg (Nat.cast_nonneg K) (by linarith)
    have hbfloor : b = ⌊(K : ℚ) * (1 - interval) / 2⌋ := by
      rw [hbdef]
      unfold Curvemod.lowess2Bound
      exact pyInt_eq_floor harg0
    have hble : (b : ℚ) ≤ (K : ℚ) * (1 - interval) / 2 := by
      rw [hbfloor]
      exact_mod_cast Int.floor_le _
    have hb1q : (1 : ℚ) ≤ (b : ℚ) := by exact_mod_cast hb1
    have hKnn : (0 : ℚ) ≤ (K : ℚ) := Nat.cast_nonneg K
    have h2b : 2 * (b : ℚ) < (K : ℚ) := by nlinarith
    have h2bz : 2 * b < (K : ℤ) := by exact_mod_cast h2b
    unfold Curvemod.lowess2Lower Curvemod.lowess2Upper Curvemod.pyGet
    rw [← hbdef]
    rw [if_pos (by omega : (0 : ℤ) ≤ b - 1), if_neg (by omega : ¬(0 : ℤ) ≤ -b)]
    apply sorted_getD_mono (sortedCol_sorted col)
    · rw [sortedCol_length, hlen]
      omega
    · rw [sortedCol_length, hlen]
      omega
  · intro col interval hne h0 h1
    have hn1 : 0 < col.length := List.length_pos.2 hne
    have hnq : (1 : ℚ) ≤ (col.length : ℚ) := by exact_mod_cast hn1
    unfold Curvemod.nanpercentile
    apply interpAt_mono (sortedCol_sorted col)
    · apply div_nonneg _ (by norm_num)
      apply mul_nonneg (by linarith)
      linarith
    · have hq := mul_le_mul_of_nonneg_left
        (by linarith : (100 - interval) / 2 ≤ 100 - (100 - interval) / 2)
        (by linarith : (0 : ℚ) ≤ (col.length : ℚ) - 1)
      linarith
    · rw [sortedCol_length]
      have hq := mul_le_mul_of_nonneg_left
        (by linarith : 100 - (100 - interval) / 2 ≤ 100)
        (by linarith : (0 : ℚ) ≤ (col.length : ℚ) - 1)
      linarith

/-- Witness for `percentile_band_ordered`: part one at K = 8 replicates
1..8 with interval 1/2 (bound = 2), part two at the column 1, 2, 3 with a
95 percent interval. -/
theorem percentile_band_ordered_witness :
    (([1, 2, 3, 4, 5, 6, 7, 8] : List ℚ).length = 8 ∧ (0 : ℚ) < 1 / 2 ∧
      (1 / 2 : ℚ) < 1 ∧ 1 ≤ Curvemod.lowess2Bound 8 (1 / 2) ∧
      Curvemod.lowess2Lower [1, 2, 3, 4, 5, 6, 7, 8] 8 (1 / 2) ≤
        Curvemod.lowess2Upper [1, 2, 3, 4, 5, 6, 7, 8] 8 (1 / 2)) ∧
    (([1, 2, 3] : List ℚ) ≠ [] ∧ (0 : ℚ) < 95 ∧ (95 : ℚ) < 100 ∧
      Curvemod.nanpercentile [1, 2, 3] ((100 - 95) / 2) ≤
        Curvemod.nanpercentile [1, 2, 3] (100 - (100 - 95) / 2)) := by
  have hb8 : Curvemod.lowess2Bound 8 (1 / 2) = 2 :=
    lowess2Bound_eq 8 (1 / 2) 2 (by norm_num) (by norm_num) (by norm_num)
  refine ⟨⟨by decide, by norm_num, by norm_num, by rw [hb8]; norm_num, ?_⟩,
    ⟨by decide, by norm_num, by norm_num, ?_⟩⟩
  · exact percentile_band_ordered.1 [1, 2, 3, 4, 5, 6, 7, 8] 8 (1 / 2)
      (by decide) (by norm_num) (by norm_num) (by rw [hb8]; norm_num)
  · exact percentile_band_ordered.2 [1, 2, 3] 95 (by decide) (by norm_num)
      (by norm_num)

/-- Subtraction of two finite model floats is exact. -/
theorem psub_num (a b : ℝ) :
    Curvemod.psub (Curvemod.PFloat.num a) (Curvemod.PFloat.num b) =
      Curvemod.PFloat.num (a - b) := rfl

/-- A finite value minus plus-infinity is minus-infinity. -/
theorem psub_num_inf (a : ℝ) :
    Curvemod.psub (Curvemod.PFloat.num a) Curvemod.PFloat.inf =
      Curvemod.PFloat.ninf := rfl

/-- A finite value minus NaN is NaN. -/
theorem psub_num_nan (a : ℝ) :
    Curvemod.psub (Curvemod.PFloat.num a) Curvemod.PFloat.nan =
      Curvemod.PFloat.nan := rfl

/-- Division of finite model floats with a nonzero divisor is exact. -/
theorem pdiv_num {b : ℝ} (a : ℝ) (hb : b ≠ 0) :
    Curvemod.pdiv (Curvemod.PFloat.num a) (Curvemod.PFloat.num b) =
      Curvemod.PFloat.num (a / b) := by
  simp only [Curvemod.pdiv]
  rw [if_neg hb]

/-- A positive finite value divided by zero is plus-infinity. -/
theorem pdiv_num_zero_pos {a : ℝ} (ha : 0 < a) :
    Curvemod.pdiv (Curvemod.PFloat.num a) (Curvemod.PFloat.num 0) =
      Curvemod.PFloat.inf := by
  simp only [Curvemod.pdiv]
  rw [if_pos trivial, if_pos ha]

/-- NaN divided by anything is NaN. -/
theorem pdiv_nan_left (x : Curvemod.PFloat) :
    Curvemod.pdiv Curvemod.PFloat.nan x = Curvemod.PFloat.nan := by
  cases x <;> rfl

/-- Logarithm of a positive finite value is finite. -/
theorem np_log10_pos {x : ℝ} (hx : 0 < x) :
    Curvemod.np_log10 (Curvemod.PFloat.num x) =
      Curvemod.PFloat.num (Real.logb 10 x) := by
  simp only [Curvemod.np_log10]
  rw [if_pos hx]

/-- Logarithm of a negative finite value is NaN. -/
theorem np_log10_neg {x : ℝ} (hx : x < 0) :
    Curvemod.np_log10 (Curvemod.PFloat.num x) = Curvemod.PFloat.nan := by
  simp only [Curvemod.np_log10]
  rw [if_neg (by linarith), if_neg (ne_of_lt hx)]

/-- Ten to a NaN exponent is NaN. -/
theorem pow10_nan : Curvemod.pow10 Curvemod.PFloat.nan = Curvemod.PFloat.nan := rfl

/-- Ten to a minus-infinite exponent is zero. -/
theorem pow10_ninf : Curvemod.pow10 Curvemod.PFloat.ninf =
    Curvemod.PFloat.num 0 := rfl

/-- Rounding a finite model float applies the real rounding. -/
theorem roundf3_num (x : ℝ) :
    Curvemod.roundf3 (Curvemod.PFloat.num x) =
      Curvemod.PFloat.num (round3 x) := rfl

/-- Rounding NaN gives NaN. -/
theorem roundf3_nan : Curvemod.roundf3 Curvemod.PFloat.nan =
    Curvemod.PFloat.nan := rfl

/-- Rounding to three decimals fixes zero. -/
theorem round3_zero : round3 (0 : ℝ) = 0 := by
  rw [show (0 : ℝ) = ((0 : ℤ) : ℝ) by norm_num]
  exact round3_intCast 0

/-- Whenever the inversion target makes the log argument negative (y outside
the open interval (bottom, top) on the relevant side), the predict
computation propagates NaN and returns NaN: no error is raised. -/
theorem y_to_x_float_nan_of_neg (y a b c d : ℝ) (hc : 0 < c)
    (hya : y - a ≠ 0) (hR : (d - a) / (y - a) - 1 < 0) :
    Curvemod.y_to_x_float y a b c d = Curvemod.PFloat.nan := by
  unfold Curvemod.y_to_x_float
  simp only [psub_num]
  rw [pdiv_num (d - a) hya]
  simp only [psub_num]
  rw [np_log10_neg hR, np_log10_pos hc]
  rw [pdiv_nan_left, psub_num_nan, pow10_nan, roundf3_nan]

/-- With slope zero and a log argument above one, the predict computation
divides a positive logarithm by zero, giving plus-infinity, so the exponent
is minus-infinity and the returned value is the float 0.0: a number, not an
error. -/
theorem y_to_x_float_slope_zero (y a c d : ℝ) (hc : 0 < c)
    (hya : 0 < y - a) (hR : 1 < (d - a) / (y - a) - 1) :
    Curvemod.y_to_x_float y a 0 c d = Curvemod.PFloat.num 0 := by
  unfold Curvemod.y_to_x_float
  simp only [psub_num]
  rw [pdiv_num (d - a) (ne_of_gt hya)]
  simp only [psub_num]
  rw [np_log10_pos (by linarith : (0 : ℝ) < (d - a) / (y - a) - 1)]
  rw [np_log10_pos hc]
  rw [pdiv_num_zero_pos (Real.logb_pos (by norm_num) (by linarith))]
  rw [psub_num_inf, pow10_ninf, roundf3_num, round3_zero]

/-- C7.  The normal-approximation band of `Lowess.conf_int` in
`src/curvemod/lowess.py` is mean - z * std and mean + z * std per grid point
with the ddof-0 column standard deviation, as claimed; but the z-score is
the inverse standard normal CDF evaluated at `interval / 100` itself: for the
default 95 percent band the code hands 0.95 to `stats.norm.ppf`
(z about 1.645), not the two-sided tail probability
1 - (1 - 0.95)/2 = 0.975 (z about 1.96) that the claim and the code's own
comment (97.5 percentile translates into a z-score of about 1.96) describe. -/
theorem se_band_uses_confidence_not_tail :
    (∀ (ppf : ℝ → ℝ) (cols : List (List ℝ)),
      Curvemod.se_band ppf cols 95 =
        (cols.map (fun c =>
          Curvemod.nanmean c - ppf (19 / 20) * Curvemod.nanstd0 c),
         cols.map (fun c =>
          Curvemod.nanmean c + ppf (19 / 20) * Curvemod.nanstd0 c))) ∧
    Curvemod.sePercentile 95 = 19 / 20 ∧
    ((19 : ℝ) / 20 ≠ 1 - (1 - 95 / 100) / 2) := by
  have hsp : Curvemod.sePercentile 95 = 19 / 20 := by
    unfold Curvemod.sePercentile
    norm_num
  refine ⟨?_, hsp, by norm_num⟩
  intro ppf cols
  unfold Curvemod.se_band
  rw [hsp]

/-- C8, counterexample.  At the fitted tuple (bottom 0, slope 0, midpoint 10,
top 100) and target y = 20, `Sigmoid.predict` returns the float 0.0 - a
number - and at (bottom 0, slope 1, midpoint 10, top 100) with target
y = 200 above the top it returns NaN.  In neither case is an OutOfRange (or
any) error raised: predict contains no raise statement and numpy only emits
RuntimeWarnings for these operations. -/
theorem predict_out_of_range_counterexample :
    Curvemod.y_to_x_float 20 0 0 10 100 = Curvemod.PFloat.num 0 ∧
    Curvemod.y_to_x_float 200 0 1 10 100 = Curvemod.PFloat.nan :=
  ⟨y_to_x_float_slope_zero 20 0 10 100 (by norm_num) (by norm_num) (by norm_num),
   y_to_x_float_nan_of_neg 200 0 1 10 100 (by norm_num) (by norm_num) (by norm_num)⟩

/-- C8, amended.  `Sigmoid.predict` performs no range validation and raises
no error: whenever the inversion target y makes the log argument
(top - bottom)/(y - bottom) - 1 negative (in particular y outside (bottom,
top) on that side), it returns the float NaN, and for slope = 0 it can
return an ordinary number (0.0 at the concrete input below); no OutOfRange
error exists anywhere in the codebase. -/
theorem predict_no_error_out_of_range :
    (∀ y a b c d : ℝ, 0 < c → y - a ≠ 0 → (d - a) / (y - a) - 1 < 0 →
      Curvemod.y_to_x_float y a b c d = Curvemod.PFloat.nan) ∧
    Curvemod.y_to_x_float 20 0 0 100 100 = Curvemod.PFloat.num 0 :=
  ⟨fun y a b c d hc hya hR => y_to_x_float_nan_of_neg y a b c d hc hya hR,
   y_to_x_float_slope_zero 20 0 100 100 (by norm_num) (by norm_num) (by norm_num)⟩

/-- Witness for `predict_no_error_out_of_range` at the tuple (0, 1, 10, 100)
with target 200 above the top asymptote. -/
theorem predict_no_error_out_of_range_witness :
    (0 : ℝ) < 10 ∧ (200 : ℝ) - 0 ≠ 0 ∧
    ((100 : ℝ) - 0) / (200 - 0) - 1 < 0 ∧
    Curvemod.y_to_x_float 200 0 1 10 100 = Curvemod.PFloat.nan :=
  ⟨by norm_num, by norm_num, by norm_num,
    predict_no_error_out_of_range.1 200 0 1 10 100 (by norm_num) (by norm_num)
      (by norm_num)⟩
